import Mathlib

/-
  Verification development for the type-resolution and domain-model
  construction core of the py2puml analysis engine.

  The collectors (SignatureVariablesCollector, AssignedVariablesCollector),
  the namespace resolver and the annotation shortener are not present in the
  available source tree (only their unit tests are); they are modelled from
  the specification, as indicated by the doc comments below.  The enum
  inspector (inspectenum.py) is embedded from its source.
-/

namespace Py2Puml

/-- Modelled from the spec: a typed variable record produced by the
collectors (a constructor parameter, a local binding or an instance
attribute); `type_expr` is the verbatim source slice of the type
annotation when one is present. -/
structure Variable where
  id : String
  type_expr : Option String
deriving DecidableEq

/-- Modelled from the spec: a namespace snapshot, a tree whose internal
nodes are named sub-namespaces and whose leaves are descriptors
(defining module and name) of resolvable symbols. -/
inductive NamespaceNode where
  | leaf (defining_module : String) (symName : String)
  | node (children : List (String × NamespaceNode))

/-- Modelled from the spec: look a name up among the children of an
internal namespace node. -/
def lookupChild (children : List (String × NamespaceNode)) (key : String) :
    Option NamespaceNode :=
  match children with
  | [] => none
  | (k, v) :: rest => if k = key then some v else lookupChild rest key

/-- Modelled from the spec (the Namespace Resolver, absent from the source
tree): walk the snapshot one dotted component at a time; resolution
succeeds only if the terminal component is a leaf descriptor, and the
qualified reference is the descriptor's defining module joined with its
name.  Resolution fails silently (returns `none`) when an intermediate
component is absent or the terminal component is not a leaf. -/
def resolvePath (ns : NamespaceNode) : List String → Option String
  | [] => none
  | [comp] =>
    match ns with
    | .node children =>
      match lookupChild children comp with
      | some (.leaf m n) => some (m ++ "." ++ n)
      | _ => none
    | .leaf _ _ => none
  | comp :: rest =>
    match ns with
    | .node children =>
      match lookupChild children comp with
      | some child => resolvePath child rest
      | none => none
    | .leaf _ _ => none

/-- Modelled from the spec: split a dotted-name token on its dots into
its components (empty components kept, mirroring how a dotted path is
decomposed component by component). -/
def splitDotsAux (cur : List Char) : List Char → List String
  | [] => [String.mk cur]
  | c :: rest =>
    if c = '.' then String.mk cur :: splitDotsAux [] rest
    else splitDotsAux (cur ++ [c]) rest

/-- Modelled from the spec: resolve one dotted-name token by splitting it
on the dots and walking the namespace snapshot. -/
def resolveToken (ns : NamespaceNode) (tok : List Char) : Option String :=
  resolvePath ns (splitDotsAux [] tok)

/-- Modelled from the spec: the module-level constant listing the three
splitting characters of the annotation tokenizer. -/
def SPLITTING_CHARACTERS : List Char := ['[', ']', ',']

/-- Modelled from the spec: a character splits the tokenization when it is
one of the three splitting characters or whitespace. -/
def isSplittingChar (c : Char) : Bool :=
  SPLITTING_CHARACTERS.contains c || c.isWhitespace

/-- Modelled from the spec: the terminal identifier component of a dotted
name, i.e. the characters after the last dot. -/
def terminalComponent (tok : List Char) : List Char :=
  ((tok.reverse.takeWhile (fun c => !(c == '.'))).reverse)

/-- Modelled from the spec: the tokenizer of the Annotation Shortener,
splitting on the splitting characters plus whitespace and discarding
empty tokens (accumulator-passing worker). -/
def tokenizeAux (cur : List Char) : List Char → List (List Char)
  | [] => if cur.isEmpty then [] else [cur]
  | c :: rest =>
    if isSplittingChar c then
      if cur.isEmpty then tokenizeAux [] rest
      else cur :: tokenizeAux [] rest
    else tokenizeAux (cur ++ [c]) rest

/-- Modelled from the spec: the list of dotted-name tokens of an
annotation string, in left-to-right order. -/
def tokenize (l : List Char) : List (List Char) := tokenizeAux [] l

/-- Modelled from the spec: the running state of the annotation shortener:
the dotted-name token being accumulated, the shortened output characters
and the successfully resolved qualified references so far. -/
structure ShortState where
  cur : List Char
  outChars : List Char
  refs : List String
deriving DecidableEq

/-- Modelled from the spec: finish the dotted-name token currently being
accumulated: substitute it by its terminal identifier component in the
shortened output and record its qualified reference when namespace
resolution succeeds; an empty token is discarded. -/
def flushState (ns : NamespaceNode) (st : ShortState) : ShortState :=
  if st.cur = [] then st
  else
    { cur := []
      outChars := st.outChars ++ terminalComponent st.cur
      refs := st.refs ++ (resolveToken ns st.cur).toList }

/-- Modelled from the spec (the Annotation Shortener, absent from the
source tree): process the annotation characters left to right; an opening
or closing bracket flushes the current token and is copied to the output,
a comma flushes and emits a comma followed by one space, whitespace only
flushes, and every other character extends the current dotted-name
token. -/
def shortenRun (ns : NamespaceNode) : ShortState → List Char → ShortState
  | st, [] => flushState ns st
  | st, c :: rest =>
    if c = '[' then
      shortenRun ns
        { cur := (flushState ns st).cur
          outChars := (flushState ns st).outChars ++ ['[']
          refs := (flushState ns st).refs } rest
    else if c = ']' then
      shortenRun ns
        { cur := (flushState ns st).cur
          outChars := (flushState ns st).outChars ++ [']']
          refs := (flushState ns st).refs } rest
    else if c = ',' then
      shortenRun ns
        { cur := (flushState ns st).cur
          outChars := (flushState ns st).outChars ++ [',', ' ']
          refs := (flushState ns st).refs } rest
    else if c.isWhitespace then
      shortenRun ns (flushState ns st) rest
    else
      shortenRun ns { st with cur := st.cur ++ [c] } rest

/-- Modelled from the spec: shorten a compound type-annotation string
against a namespace snapshot, returning the shortened annotation and
the list of successfully resolved qualified references in first-seen
left-to-right order, duplicates retained. -/
def shorten_compound_type_annotation (typeAnn : String) (ns : NamespaceNode) :
    String × List String :=
  let st := shortenRun ns ⟨[], [], []⟩ typeAnn.data
  (String.mk st.outChars, st.refs)

/-- Modelled from the spec: the namespace snapshot of the first
shortening test case: the enclosing module imported `domain.people`,
so `people.Person` resolves to a leaf defined in module
`domain.people`. -/
def testNS1 : NamespaceNode :=
  .node [("people", .node [("Person", .leaf "domain.people" "Person")])]

/-- Modelled from the spec: the namespace snapshot of the compound
shortening test case; the builtin generic constructs `Dict` and `List`
resolve against a pre-seeded `typing` namespace entry, both at top level
and under the `typing` sub-namespace. -/
def testNS2 : NamespaceNode :=
  .node
    [ ("Dict", .leaf "typing" "Dict")
    , ("List", .leaf "typing" "List")
    , ("typing",
        .node [("Dict", .leaf "typing" "Dict"), ("List", .leaf "typing" "List")])
    , ("id", .node [("Identifier", .leaf "id" "Identifier")])
    , ("domain", .node [("Person", .leaf "domain" "Person")])
    ]

/-- Modelled from the spec: the kind of a constructor parameter node:
an ordinary parameter, the variadic positional parameter or the
keyword-wildcard parameter. -/
inductive ArgKind where
  | plain
  | vararg
  | kwarg
deriving DecidableEq

/-- Modelled from the spec: a parameter node of a constructor's
parameter list; `annot` is the verbatim source slice of its type
annotation when one is present and addressable. -/
structure ArgNode where
  arg : String
  annot : Option String
  kind : ArgKind
deriving DecidableEq

/-- Modelled from the spec: the type expression recorded for a
parameter: the verbatim annotation slice for an ordinary parameter,
and `none` for variadic positional and keyword-wildcard parameters
even when an annotation is present (documented limitation). -/
def effectiveAnn (a : ArgNode) : Option String :=
  match a.kind with
  | .plain => a.annot
  | .vararg => none
  | .kwarg => none

/-- Modelled from the spec: the Constructor Signature Collector, walking
a constructor's parameter list; the first visited parameter becomes the
self identifier, subsequent parameters are collected in declared
order. -/
structure SignatureVariablesCollector where
  constructor_source : String
  class_self_id : Option String
  vars : List Variable
deriving DecidableEq

/-- Modelled from the spec: a freshly constructed signature collector:
the self identifier is unknown (discovered during traversal) and no
variable has been collected yet. -/
def SignatureVariablesCollector.init (src : String) : SignatureVariablesCollector :=
  { constructor_source := src, class_self_id := none, vars := [] }

/-- Modelled from the spec: visiting one parameter node: the first
parameter's identifier becomes the self identifier and is never added to
the output list; every subsequent parameter is appended with its
effective type expression.  The method itself returns no value
(Python's implicit None), results are communicated through the
collector's fields. -/
def SignatureVariablesCollector.visit_arg (st : SignatureVariablesCollector)
    (node : ArgNode) : SignatureVariablesCollector × Option Variable :=
  match st.class_self_id with
  | none => ({ st with class_self_id := some node.arg }, none)
  | some _ =>
    ({ st with vars := st.vars ++ [⟨node.arg, effectiveAnn node⟩] }, none)

/-- Modelled from the spec: run the signature collector over a
constructor's parameter list in declared order. -/
def collectArgs (src : String) (args : List ArgNode) : SignatureVariablesCollector :=
  args.foldl (fun st a => (SignatureVariablesCollector.visit_arg st a).1)
    (SignatureVariablesCollector.init src)

/-- Modelled from the spec: an assignment-target syntax node: a plain
identifier, an attribute access on a base expression, a subscript, or a
tuple/list destructuring target (represented as a cons chain built by
`tupleTarget`). -/
inductive TargetNode where
  | Name (id : String)
  | Attribute (value : TargetNode) (attr : String)
  | Subscript (value : TargetNode)
  | tupleNil
  | tupleCons (head : TargetNode) (tail : TargetNode)
deriving DecidableEq

/-- Modelled from the spec: a tuple/list destructuring target with the
given elements, in left-to-right order. -/
def tupleTarget (elts : List TargetNode) : TargetNode :=
  elts.foldr TargetNode.tupleCons TargetNode.tupleNil

/-- Modelled from the spec (the Assignment Target Collector, absent from
the source tree): dispatch on the target node kind.  A plain identifier
equal to the self identifier produces nothing; any other identifier is
appended to the local variables.  An attribute access whose base is a
plain identifier equal to the self identifier appends the attribute name
to the self attributes; any other base produces nothing.  A subscript is
always a no-op.  A destructuring target recurses element-wise through
the same rules, and no element ever receives a type expression,
regardless of the collector's own annotation field. -/
def visitTargetAux (self_id : String) :
    Option String → TargetNode → List Variable × List Variable →
      List Variable × List Variable
  | ann, .Name id, acc =>
    if id = self_id then acc else (acc.1 ++ [⟨id, ann⟩], acc.2)
  | ann, .Attribute (.Name base) attr, acc =>
    if base = self_id then (acc.1, acc.2 ++ [⟨attr, ann⟩]) else acc
  | _, .Attribute _ _, acc => acc
  | _, .Subscript _, acc => acc
  | _, .tupleNil, acc => acc
  | _, .tupleCons h t, acc =>
    visitTargetAux self_id none t (visitTargetAux self_id none h acc)

/-- Modelled from the spec: the Assignment Target Collector: the self
identifier, the optional annotation of the enclosing single-target
statement, and the two output lists. -/
structure AssignedVariablesCollector where
  class_self_id : String
  annot : Option String
  vars : List Variable
  self_attributes : List Variable
deriving DecidableEq

/-- Modelled from the spec: a freshly constructed assignment-target
collector: both output lists are empty. -/
def AssignedVariablesCollector.init (self_id : String) (ann : Option String) :
    AssignedVariablesCollector :=
  { class_self_id := self_id, annot := ann, vars := [], self_attributes := [] }

/-- Modelled from the spec: visit one assignment target, updating the
collector's output lists. -/
def AssignedVariablesCollector.visit (st : AssignedVariablesCollector)
    (t : TargetNode) : AssignedVariablesCollector :=
  let acc := visitTargetAux st.class_self_id st.annot t (st.vars, st.self_attributes)
  { st with vars := acc.1, self_attributes := acc.2 }

/-- Modelled from the spec: the visit method for a plain identifier
target; it returns no value (Python's implicit None). -/
def AssignedVariablesCollector.visit_Name (st : AssignedVariablesCollector)
    (node_id : String) : AssignedVariablesCollector × Option Variable :=
  (st.visit (TargetNode.Name node_id), none)

/-- Modelled from the spec: the visit method for an attribute-access
target; it returns no value (Python's implicit None). -/
def AssignedVariablesCollector.visit_Attribute (st : AssignedVariablesCollector)
    (value : TargetNode) (attr : String) : AssignedVariablesCollector × Option Variable :=
  (st.visit (TargetNode.Attribute value attr), none)

/-- Modelled from the spec: the visit method for a subscript target; it
returns no value (Python's implicit None). -/
def AssignedVariablesCollector.visit_Subscript (st : AssignedVariablesCollector)
    (value : TargetNode) : AssignedVariablesCollector × Option Variable :=
  (st.visit (TargetNode.Subscript value), none)

/-- Modelled from the spec: a multi-target assignment statement with N
targets is decomposed by the caller into N independent collector runs;
the source grammar forbids annotations on multi-target statements, so
each run receives no annotation. -/
def decomposeMultiAssign (self_id : String) (targets : List TargetNode) :
    List AssignedVariablesCollector :=
  targets.map (fun t => (AssignedVariablesCollector.init self_id none).visit t)

/-- A runtime value carried by an enumeration member. -/
inductive PyValue where
  | intVal (n : Int)
  | strVal (s : String)
deriving DecidableEq

/-- A member of a UML enum item: its name and its runtime value
(embeds py2puml.domain.umlenum.Member). -/
structure Member where
  name : String
  value : PyValue
deriving DecidableEq

/-- A domain item registered in the shared item mapping (embeds
py2puml.domain.umlitem.UmlItem and its UmlEnum variant). -/
inductive UmlItem where
  | umlEnum (name : String) (fqn : String) (members : List Member)
  | otherItem (name : String) (fqn : String)
deriving DecidableEq

/-- A Python type passed to the enum inspector: either a genuine
enumeration type, whose iteration yields its members in declaration
order, or any other (non-enumeration) type. -/
inductive PyType where
  | enumType (typeName : String) (members : List Member)
  | nonEnumType (typeName : String)
deriving DecidableEq

/-- The `__name__` attribute of a Python type. -/
def pyTypeName : PyType → String
  | .enumType n _ => n
  | .nonEnumType n => n

/-- Iterating a Python type: a genuine enumeration type yields its
members in declaration order; iterating any other type raises a
TypeError (embedded as an `Except.error`). -/
def iterMembers : PyType → Except String (List Member)
  | .enumType _ ms => .ok ms
  | .nonEnumType n => .error ("TypeError: " ++ n ++ " is not iterable")

/-- The shared item mapping, keyed by fully-qualified name (embeds the
Python dict passed to inspect_enum_type). -/
def ItemsByFqn : Type := String → Option UmlItem

/-- Setting one key of the shared item mapping (embeds Python dict item
assignment: last write wins, every other key unchanged). -/
def updateItems (m : ItemsByFqn) (k : String) (v : UmlItem) : ItemsByFqn :=
  fun q => if q = k then some v else m q

/-- Embeds inspect_enum_type (py2puml/inspection/inspectenum.py): build a
UmlEnum from the type's name, the given fully-qualified name and the
(member name, runtime value) pairs obtained by iterating the type, then
register it in the mapping at the fully-qualified name.  The right-hand
side, including the member iteration, is evaluated before the mapping is
assigned, so a TypeError raised by iterating a non-enumeration type
propagates before any mutation. -/
def inspect_enum_type (enum_type : PyType) (enum_type_fqn : String)
    (domain_items_by_fqn : ItemsByFqn) : Except String ItemsByFqn :=
  match iterMembers enum_type with
  | .error e => .error e
  | .ok ms =>
    .ok (updateItems domain_items_by_fqn enum_type_fqn
      (UmlItem.umlEnum (pyTypeName enum_type) enum_type_fqn ms))

/-- A character that can occur inside an already-shortened token: not a
splitting character, not whitespace, and not a dot. -/
def cleanChar (c : Char) : Bool := !isSplittingChar c && !(c == '.')

/-- The shape of an already-shortened annotation: a concatenation of
clean nonempty tokens, brackets, and commas each followed by one
space. -/
inductive NormBlocks : List Char → Prop
  | nil : NormBlocks []
  | tok (t rest : List Char) : t ≠ [] → (∀ c ∈ t, cleanChar c = true) →
      NormBlocks rest → NormBlocks (t ++ rest)
  | lb (rest : List Char) : NormBlocks rest → NormBlocks ('[' :: rest)
  | rb (rest : List Char) : NormBlocks rest → NormBlocks (']' :: rest)
  | comma (rest : List Char) : NormBlocks rest → NormBlocks (',' :: ' ' :: rest)

/-- Whether an assignment-target node is a plain identifier. -/
def isPlainName : TargetNode → Bool
  | .Name _ => true
  | _ => false

/-- The parameter list of the sample constructor of the unit tests,
after its first (instance-reference) parameter. -/
def sampleCtorArgs : List ArgNode :=
  [ ⟨"an_int", some "int", .plain⟩
  , ⟨"an_untyped", none, .plain⟩
  , ⟨"a_compound", some "Tuple[float, Dict[str, List[bool]]]", .plain⟩
  , ⟨"a_default", some "str", .plain⟩
  , ⟨"args", none, .vararg⟩
  , ⟨"kwargs", none, .kwarg⟩ ]

/-- A sample item mapping holding a stale entry at the enum's key and an
unrelated entry at another key. -/
def sampleItems : ItemsByFqn := fun q =>
  if q = "colors.Color" then some (UmlItem.otherItem "Old" "colors.Color")
  else if q = "other.Key" then some (UmlItem.otherItem "Other" "other.Key")
  else none

/-- Extract the mapping from a successful inspection result (the empty
mapping on error). -/
def itemsOf : Except String ItemsByFqn → ItemsByFqn
  | .ok m => m
  | .error _ => fun _ => none

theorem isSplittingChar_eq (c : Char) :
    isSplittingChar c = ((c == '[') || (c == ']') || (c == ',') || c.isWhitespace) := by
  rw [isSplittingChar]
  apply Bool.eq_iff_iff.mpr
  simp [SPLITTING_CHARACTERS, or_assoc]

theorem isSplittingChar_false (c : Char) (h1 : ¬(c = '[')) (h2 : ¬(c = ']'))
    (h3 : ¬(c = ',')) (h4 : ¬(c.isWhitespace = true)) : isSplittingChar c = false := by
  rw [isSplittingChar_eq]
  simp only [Bool.or_eq_false_iff, beq_eq_false_iff_ne, ne_eq]
  exact ⟨⟨⟨h1, h2⟩, h3⟩, by simpa using h4⟩

theorem tokenizeAux_flatten (l cur : List Char) :
    (tokenizeAux cur l).flatten = cur ++ l.filter (fun c => !isSplittingChar c) := by
  induction l generalizing cur with
  | nil =>
    cases cur <;> simp [tokenizeAux]
  | cons c rest ih =>
    by_cases h : isSplittingChar c = true
    · cases cur <;> simp [tokenizeAux, h, ih, List.filter_cons]
    · simp only [Bool.not_eq_true] at h
      simp [tokenizeAux, h, ih, List.filter_cons, List.append_assoc]

theorem tokenizeAux_no_empty (l cur : List Char) :
    (tokenizeAux cur l).all (fun t => !t.isEmpty) = true := by
  induction l generalizing cur with
  | nil => cases cur <;> simp [tokenizeAux]
  | cons c rest ih =>
    by_cases h : isSplittingChar c = true
    · cases cur <;> simp [tokenizeAux, h, ih]
    · simp only [Bool.not_eq_true] at h
      simpa [tokenizeAux, h] using ih (cur ++ [c])

theorem flushState_cur (ns : NamespaceNode) (st : ShortState) :
    (flushState ns st).cur = [] := by
  unfold flushState
  split <;> simp_all

theorem flushState_of_cur_nil (ns : NamespaceNode) (st : ShortState)
    (h : st.cur = []) : flushState ns st = st := by
  unfold flushState
  rw [if_pos h]

theorem flushState_refs (ns : NamespaceNode) (st : ShortState) :
    (flushState ns st).refs =
      st.refs ++ (tokenizeAux st.cur []).filterMap (resolveToken ns) := by
  obtain ⟨cur, outc, refs⟩ := st
  cases cur with
  | nil => simp [flushState, tokenizeAux]
  | cons a as =>
    simp only [flushState, tokenizeAux]
    cases h : resolveToken ns (a :: as) <;>
      simp [h, Option.toList, List.filterMap_cons]

theorem tokenizeAux_splitter (c : Char) (cur rest : List Char)
    (h : isSplittingChar c = true) :
    tokenizeAux cur (c :: rest) = tokenizeAux cur [] ++ tokenizeAux [] rest := by
  cases cur <;> simp [tokenizeAux, h]

theorem shortenRun_refs (ns : NamespaceNode) (l : List Char) (st : ShortState) :
    (shortenRun ns st l).refs =
      st.refs ++ (tokenizeAux st.cur l).filterMap (resolveToken ns) := by
  induction l generalizing st with
  | nil => simpa [shortenRun] using flushState_refs ns st
  | cons c rest ih =>
    by_cases h1 : c = '['
    · subst h1
      rw [shortenRun, if_pos rfl, ih, tokenizeAux_splitter _ _ _ (by decide)]
      simp [flushState_refs, flushState_cur, List.filterMap_append, List.append_assoc]
    · by_cases h2 : c = ']'
      · subst h2
        rw [shortenRun, if_neg (by decide), if_pos rfl, ih,
          tokenizeAux_splitter _ _ _ (by decide)]
        simp [flushState_refs, flushState_cur, List.filterMap_append, List.append_assoc]
      · by_cases h3 : c = ','
        · subst h3
          rw [shortenRun, if_neg (by decide), if_neg (by decide), if_pos rfl, ih,
            tokenizeAux_splitter _ _ _ (by decide)]
          simp [flushState_refs, flushState_cur, List.filterMap_append, List.append_assoc]
        · by_cases h4 : c.isWhitespace = true
          · rw [shortenRun, if_neg h1, if_neg h2, if_neg h3, if_pos h4, ih,
              tokenizeAux_splitter _ _ _ (by rw [isSplittingChar_eq]; simp [h4])]
            simp [flushState_refs, flushState_cur, List.filterMap_append, List.append_assoc]
          · have hs : isSplittingChar c = false := isSplittingChar_false c h1 h2 h3 h4
            rw [shortenRun, if_neg h1, if_neg h2, if_neg h3, if_neg h4, ih]
            simp [tokenizeAux, hs]

theorem terminalComponent_of_no_dot (t : List Char)
    (h : ∀ c ∈ t, (c == '.') = false) : terminalComponent t = t := by
  unfold terminalComponent
  rw [List.takeWhile_eq_self_iff.mpr ?_, List.reverse_reverse]
  intro c hc
  simp [h c (List.mem_reverse.mp hc)]

theorem terminalComponent_mem {c : Char} {t : List Char}
    (hc : c ∈ terminalComponent t) : c ∈ t ∧ (c == '.') = false := by
  unfold terminalComponent at hc
  rw [List.mem_reverse] at hc
  refine ⟨List.mem_reverse.mp ((List.takeWhile_sublist _).mem hc), ?_⟩
  have := List.mem_takeWhile_imp hc
  simpa using this

theorem NormBlocks.append {a b : List Char} (ha : NormBlocks a)
    (hb : NormBlocks b) : NormBlocks (a ++ b) := by
  induction ha with
  | nil => simpa using hb
  | tok t rest ht hclean hrest ih =>
    rw [List.append_assoc]
    exact .tok t _ ht hclean ih
  | lb rest hrest ih => rw [List.cons_append]; exact .lb _ ih
  | rb rest hrest ih => rw [List.cons_append]; exact .rb _ ih
  | comma rest hrest ih =>
    rw [List.cons_append, List.cons_append]
    exact .comma _ ih

theorem NormBlocks.single_tok (t : List Char)
    (h : ∀ c ∈ t, cleanChar c = true) : NormBlocks t := by
  by_cases ht : t = []
  · subst ht; exact .nil
  · simpa using NormBlocks.tok t [] ht h .nil

theorem flushState_outChars (ns : NamespaceNode) (st : ShortState) :
    (flushState ns st).outChars = st.outChars ++ terminalComponent st.cur := by
  unfold flushState
  split
  · rename_i h
    simp [h, terminalComponent]
  · rfl

theorem cleanChar_terminal {t : List Char}
    (h : ∀ c ∈ t, isSplittingChar c = false) :
    ∀ c ∈ terminalComponent t, cleanChar c = true := by
  intro c hc
  obtain ⟨hmem, hdot⟩ := terminalComponent_mem hc
  simp [cleanChar, h c hmem, hdot]

theorem no_dot_of_clean {t : List Char} (h : ∀ c ∈ t, cleanChar c = true) :
    ∀ c ∈ t, (c == '.') = false := by
  intro c hc
  have := h c hc
  simp [cleanChar] at this
  simpa using this.2

theorem not_splitting_of_clean {t : List Char}
    (h : ∀ c ∈ t, cleanChar c = true) :
    ∀ c ∈ t, isSplittingChar c = false := by
  intro c hc
  have := h c hc
  simp [cleanChar] at this
  exact this.1

theorem shortenRun_clean_run (ns : NamespaceNode) (t : List Char)
    (ht : ∀ c ∈ t, isSplittingChar c = false) (st : ShortState) (l2 : List Char) :
    shortenRun ns st (t ++ l2) =
      shortenRun ns { st with cur := st.cur ++ t } l2 := by
  induction t generalizing st with
  | nil => simp
  | cons c cs ih =>
    have hc := ht c (by simp)
    rw [isSplittingChar_eq] at hc
    simp only [Bool.or_eq_false_iff, beq_eq_false_iff_ne, ne_eq] at hc
    obtain ⟨⟨⟨h1, h2⟩, h3⟩, h4⟩ := hc
    rw [List.cons_append, shortenRun, if_neg h1, if_neg h2, if_neg h3,
      if_neg (by simp [h4]), ih (fun d hd => ht d (by simp [hd]))]
    simp [List.append_assoc]

theorem norm_shortenRun (ns : NamespaceNode) (l : List Char) :
    ∀ st : ShortState, NormBlocks st.outChars →
      (∀ c ∈ st.cur, isSplittingChar c = false) →
      NormBlocks (shortenRun ns st l).outChars := by
  induction l with
  | nil =>
    intro st h1 h2
    rw [shortenRun, flushState_outChars]
    exact h1.append (NormBlocks.single_tok _ (cleanChar_terminal h2))
  | cons c rest ih =>
    intro st h1 h2
    have hnormflush : NormBlocks (flushState ns st).outChars := by
      rw [flushState_outChars]
      exact h1.append (NormBlocks.single_tok _ (cleanChar_terminal h2))
    have hcurflush : ∀ c ∈ (flushState ns st).cur, isSplittingChar c = false := by
      rw [flushState_cur]; intro c hc; cases hc
    by_cases hc1 : c = '['
    · subst hc1
      rw [shortenRun, if_pos rfl]
      refine ih _ ?_ (by rw [flushState_cur]; intro c hc; cases hc)
      exact hnormflush.append (NormBlocks.lb [] .nil)
    · by_cases hc2 : c = ']'
      · subst hc2
        rw [shortenRun, if_neg (by decide), if_pos rfl]
        refine ih _ ?_ (by rw [flushState_cur]; intro c hc; cases hc)
        exact hnormflush.append (NormBlocks.rb [] .nil)
      · by_cases hc3 : c = ','
        · subst hc3
          rw [shortenRun, if_neg (by decide), if_neg (by decide), if_pos rfl]
          refine ih _ ?_ (by rw [flushState_cur]; intro c hc; cases hc)
          exact hnormflush.append (NormBlocks.comma [] .nil)
        · by_cases hc4 : c.isWhitespace = true
          · rw [shortenRun, if_neg hc1, if_neg hc2, if_neg hc3, if_pos hc4]
            exact ih _ hnormflush hcurflush
          · rw [shortenRun, if_neg hc1, if_neg hc2, if_neg hc3, if_neg hc4]
            refine ih _ h1 ?_
            intro d hd
            rcases List.mem_append.mp hd with h | h
            · exact h2 d h
            · rw [List.mem_singleton] at h
              subst h
              exact isSplittingChar_false d hc1 hc2 hc3 hc4

theorem shortenRun_of_norm (ns : NamespaceNode) {l : List Char}
    (hl : NormBlocks l) :
    ∀ st : ShortState, (∀ c ∈ st.cur, cleanChar c = true) →
      (shortenRun ns st l).outChars = st.outChars ++ st.cur ++ l := by
  induction hl with
  | nil =>
    intro st hst
    rw [shortenRun, flushState_outChars,
      terminalComponent_of_no_dot st.cur (no_dot_of_clean hst)]
    simp
  | tok t rest ht hclean hrest ih =>
    intro st hst
    rw [shortenRun_clean_run ns t (not_splitting_of_clean hclean) st rest]
    rw [ih _ ?_]
    · simp [List.append_assoc]
    · intro c hc
      rcases List.mem_append.mp hc with h | h
      · exact hst c h
      · exact hclean c h
  | lb rest hrest ih =>
    intro st hst
    rw [shortenRun, if_pos rfl]
    rw [ih _ (by intro c hc; simp [flushState_cur] at hc)]
    simp [flushState_cur, flushState_outChars,
      terminalComponent_of_no_dot st.cur (no_dot_of_clean hst)]
  | rb rest hrest ih =>
    intro st hst
    rw [shortenRun, if_neg (by decide), if_pos rfl]
    rw [ih _ (by intro c hc; simp [flushState_cur] at hc)]
    simp [flushState_cur, flushState_outChars,
      terminalComponent_of_no_dot st.cur (no_dot_of_clean hst)]
  | comma rest hrest ih =>
    intro st hst
    rw [shortenRun, if_neg (by decide), if_neg (by decide), if_pos rfl]
    rw [shortenRun, if_neg (by decide), if_neg (by decide), if_neg (by decide),
      if_pos (by decide)]
    rw [flushState_of_cur_nil ns _ (by simp [flushState_cur])]
    rw [ih _ (by intro c hc; simp [flushState_cur] at hc)]
    simp [flushState_cur, flushState_outChars,
      terminalComponent_of_no_dot st.cur (no_dot_of_clean hst)]

theorem foldl_visit_arg_after_self (rest : List ArgNode)
    (st : SignatureVariablesCollector) (v : String)
    (h : st.class_self_id = some v) :
    (rest.foldl (fun s a => (SignatureVariablesCollector.visit_arg s a).1) st).class_self_id
        = some v ∧
    (rest.foldl (fun s a => (SignatureVariablesCollector.visit_arg s a).1) st).vars
        = st.vars ++ rest.map (fun a => ⟨a.arg, effectiveAnn a⟩) := by
  induction rest generalizing st with
  | nil => simp [h]
  | cons a as ih =>
    have hstep :
        (SignatureVariablesCollector.visit_arg st a).1 =
          { st with vars := st.vars ++ [⟨a.arg, effectiveAnn a⟩] } := by
      unfold SignatureVariablesCollector.visit_arg
      rw [h]
    rw [List.foldl_cons, hstep]
    obtain ⟨h1, h2⟩ := ih { st with vars := st.vars ++ [⟨a.arg, effectiveAnn a⟩] } h
    exact ⟨h1, by rw [h2]; simp⟩

theorem visitTargetAux_append (t : TargetNode) (sid : String) (ann : Option String)
    (acc : List Variable × List Variable) :
    ∃ dv da, visitTargetAux sid ann t acc = (acc.1 ++ dv, acc.2 ++ da) ∧
      (ann = none → (∀ v ∈ dv, v.type_expr = none) ∧ (∀ v ∈ da, v.type_expr = none)) := by
  induction t generalizing ann acc with
  | Name id =>
    by_cases h : id = sid
    · exact ⟨[], [], by simp [visitTargetAux, h], by simp⟩
    · refine ⟨[⟨id, ann⟩], [], by simp [visitTargetAux, h], ?_⟩
      rintro rfl
      simp
  | Attribute value attr ihv =>
    cases value with
    | Name base =>
      by_cases h : base = sid
      · refine ⟨[], [⟨attr, ann⟩], by simp [visitTargetAux, h], ?_⟩
        rintro rfl
        simp
      · exact ⟨[], [], by simp [visitTargetAux, h], by simp⟩
    | Attribute v a => exact ⟨[], [], by simp [visitTargetAux], by simp⟩
    | Subscript v => exact ⟨[], [], by simp [visitTargetAux], by simp⟩
    | tupleNil => exact ⟨[], [], by simp [visitTargetAux], by simp⟩
    | tupleCons h t => exact ⟨[], [], by simp [visitTargetAux], by simp⟩
  | Subscript value ihv => exact ⟨[], [], by simp [visitTargetAux], by simp⟩
  | tupleNil => exact ⟨[], [], by simp [visitTargetAux], by simp⟩
  | tupleCons hd tl ihh iht =>
    obtain ⟨dv1, da1, he1, hp1⟩ := ihh none acc
    obtain ⟨dv2, da2, he2, hp2⟩ := iht none (visitTargetAux sid none hd acc)
    refine ⟨dv1 ++ dv2, da1 ++ da2, ?_, ?_⟩
    · show visitTargetAux sid none tl (visitTargetAux sid none hd acc) = _
      rw [he2, he1]
      simp [List.append_assoc]
    · intro _
      obtain ⟨hv1, ha1⟩ := hp1 rfl
      obtain ⟨hv2, ha2⟩ := hp2 rfl
      constructor
      · intro v hv
        rcases List.mem_append.mp hv with h | h
        · exact hv1 v h
        · exact hv2 v h
      · intro v hv
        rcases List.mem_append.mp hv with h | h
        · exact ha1 v h
        · exact ha2 v h

theorem visitTargetAux_tuple_ann_irrel (sid : String) (ann : Option String)
    (elts : List TargetNode) (acc : List Variable × List Variable) :
    visitTargetAux sid ann (tupleTarget elts) acc =
      visitTargetAux sid none (tupleTarget elts) acc := by
  cases elts <;> rfl

theorem shorten_fst (s : String) (ns : NamespaceNode) :
    ( shorten_compound_type_annotation s ns).1 =
      String.mk ((shortenRun ns ⟨[], [], []⟩ s.data).outChars) := rfl

theorem shorten_snd (s : String) (ns : NamespaceNode) :
    ( shorten_compound_type_annotation s ns).2 =
      (shortenRun ns ⟨[], [], []⟩ s.data).refs := rfl

/-- C1: for every compound annotation string, the shortener returns the
list of every successfully resolved qualified reference of its
dotted-name tokens, in first-seen left-to-right order with duplicates
retained; and on the compound example the shortened annotation replaces
every token by its terminal component, reassembled with a comma and a
space between sibling arguments and no space after an opening bracket,
yielding the expected pair. -/
theorem spec_c1_shorten_compound :
    (∀ (s : String) (ns : NamespaceNode),
      ( shorten_compound_type_annotation s ns).2 =
        (tokenize s.data).filterMap (resolveToken ns)) ∧
    shorten_compound_type_annotation
        "Dict[id.Identifier,typing.List[domain.Person]]" testNS2 =
      ("Dict[Identifier, List[Person]]",
        ["typing.Dict", "id.Identifier", "typing.List", "domain.Person"]) := by
  refine ⟨?_, by decide⟩
  intro s ns
  rw [shorten_snd, shortenRun_refs]
  simp [tokenize]

/-- C5: the tokenizer splits exactly on the three characters of the
module-level splitting-character constant plus whitespace, discards
empty tokens, and every other character belongs to a dotted-name
token. -/
theorem spec_c5_splitting_characters :
    SPLITTING_CHARACTERS = ['[', ']', ','] ∧
    (∀ c : Char, isSplittingChar c =
      ((c == '[') || (c == ']') || (c == ',') || c.isWhitespace)) ∧
    (∀ l : List Char, (tokenize l).all (fun t => !t.isEmpty) = true) ∧
    (∀ l : List Char,
      (tokenize l).flatten = l.filter (fun c => !isSplittingChar c)) := by
  refine ⟨rfl, isSplittingChar_eq, ?_, ?_⟩
  · intro l
    exact tokenizeAux_no_empty l []
  · intro l
    simpa using tokenizeAux_flatten l []

/-- C6: annotation shortening is idempotent (shortening an
already-shortened annotation returns it unchanged, against any
namespace snapshot), and shortening the qualified reference
people.Person against a snapshot where it resolves yields the pair
(Person, [domain.people.Person]). -/
theorem spec_c6_idempotent_roundtrip :
    (∀ (s : String) (ns ns2 : NamespaceNode),
      ( shorten_compound_type_annotation
          ( shorten_compound_type_annotation s ns).1 ns2).1 =
        ( shorten_compound_type_annotation s ns).1) ∧
    shorten_compound_type_annotation "people.Person" testNS1 =
      ("Person", ["domain.people.Person"]) := by
  refine ⟨?_, by decide⟩
  intro s ns ns2
  rw [shorten_fst, shorten_fst]
  have hd : (String.mk ((shortenRun ns ⟨[], [], []⟩ s.data).outChars)).data =
      (shortenRun ns ⟨[], [], []⟩ s.data).outChars := rfl
  rw [hd]
  have hnorm : NormBlocks ((shortenRun ns ⟨[], [], []⟩ s.data).outChars) :=
    norm_shortenRun ns s.data ⟨[], [], []⟩ .nil (by intro c hc; cases hc)
  have hid := shortenRun_of_norm ns2 hnorm ⟨[], [], []⟩ (by intro c hc; cases hc)
  rw [hid]
  simp

/-- C7: a token whose namespace resolution fails produces no qualified
reference and no error: the shortened annotation still uses the token's
bare terminal name and the reference list is empty (the resolver and
shortener are pure functions of the snapshot, which is never
mutated). -/
theorem spec_c7_unresolvable_token (ns : NamespaceNode) (t : List Char)
    (h1 : ¬(t = [])) (h2 : ∀ c ∈ t, isSplittingChar c = false)
    (h3 : resolveToken ns t = none) :
    shorten_compound_type_annotation (String.mk t) ns =
      (String.mk (terminalComponent t), []) := by
  have hrun : shortenRun ns ⟨[], [], []⟩ t =
      flushState ns { cur := t, outChars := [], refs := [] } := by
    have h := shortenRun_clean_run ns t h2 ⟨[], [], []⟩ []
    simpa [shortenRun] using h
  have hflush : flushState ns { cur := t, outChars := [], refs := [] } =
      { cur := [], outChars := terminalComponent t, refs := [] } := by
    unfold flushState
    rw [if_neg h1]
    simp [h3]
  show (String.mk ((shortenRun ns ⟨[], [], []⟩ (String.mk t).data).outChars),
      (shortenRun ns ⟨[], [], []⟩ (String.mk t).data).refs) = _
  have hdata : (String.mk t).data = t := rfl
  rw [hdata, hrun, hflush]

theorem spec_c7_witness :
    resolveToken testNS1 "unknown.Thing".data = none ∧
    shorten_compound_type_annotation "unknown.Thing" testNS1 = ("Thing", []) := by
  refine ⟨by decide, ?_⟩
  have h := spec_c7_unresolvable_token testNS1 ("unknown.Thing".data)
    (by decide) (by decide) (by decide)
  have h2 : (String.mk (terminalComponent "unknown.Thing".data),
      ([] : List String)) = ("Thing", []) := by decide
  exact h2 ▸ h

/-- C2: the first constructor parameter becomes the self identifier and
never appears in the collected parameter list; every later parameter is
collected in declared order with its effective type expression (the
verbatim annotation slice for ordinary parameters, none for untyped,
variadic positional and keyword-wildcard parameters). -/
theorem spec_c2_signature_collector (src : String) (first : ArgNode)
    (rest : List ArgNode) (h : first.arg ∉ rest.map ArgNode.arg) :
    (collectArgs src (first :: rest)).class_self_id = some first.arg ∧
    (collectArgs src (first :: rest)).vars =
      rest.map (fun a => ⟨a.arg, effectiveAnn a⟩) ∧
    first.arg ∉ (collectArgs src (first :: rest)).vars.map Variable.id := by
  have hstep : (SignatureVariablesCollector.visit_arg
      (SignatureVariablesCollector.init src) first).1 =
      { constructor_source := src, class_self_id := some first.arg, vars := [] } := rfl
  have hfold := foldl_visit_arg_after_self rest
    { constructor_source := src, class_self_id := some first.arg, vars := [] }
    first.arg rfl
  have hcollect : collectArgs src (first :: rest) =
      rest.foldl (fun s a => (SignatureVariablesCollector.visit_arg s a).1)
        { constructor_source := src, class_self_id := some first.arg, vars := [] } := by
    unfold collectArgs
    rw [List.foldl_cons, hstep]
  refine ⟨by rw [hcollect]; exact hfold.1, by rw [hcollect, hfold.2]; simp, ?_⟩
  rw [hcollect, hfold.2]
  simp only [List.nil_append, List.map_map]
  intro hmem
  apply h
  have : (Variable.id ∘ fun a => (⟨a.arg, effectiveAnn a⟩ : Variable)) =
      ArgNode.arg := rfl
  rw [this] at hmem
  exact hmem

theorem spec_c2_witness :
    ("me" ∉ sampleCtorArgs.map ArgNode.arg) ∧
    (collectArgs "src" (⟨"me", none, ArgKind.plain⟩ :: sampleCtorArgs)).class_self_id =
      some "me" ∧
    (collectArgs "src" (⟨"me", none, ArgKind.plain⟩ :: sampleCtorArgs)).vars =
      [ ⟨"an_int", some "int"⟩, ⟨"an_untyped", none⟩
      , ⟨"a_compound", some "Tuple[float, Dict[str, List[bool]]]"⟩
      , ⟨"a_default", some "str"⟩, ⟨"args", none⟩, ⟨"kwargs", none⟩ ] := by
  refine ⟨by decide, ?_, ?_⟩
  · exact (spec_c2_signature_collector "src" ⟨"me", none, ArgKind.plain⟩
      sampleCtorArgs (by decide)).1
  · rw [(spec_c2_signature_collector "src" ⟨"me", none, ArgKind.plain⟩
      sampleCtorArgs (by decide)).2.1]
    decide

/-- C3: with a fresh collector for a given self identifier: an
attribute-access target whose base is a plain identifier equal to the
self identifier appends exactly one Variable (the attribute name with
the statement's annotation) to the self attributes and nothing to the
local variables; an attribute-access target with any other base, and
every subscript target, leave the collector unchanged even when an
annotation is present. -/
theorem spec_c3_assignment_targets (sid attr : String) (ann : Option String) :
    (((AssignedVariablesCollector.init sid ann).visit
        (TargetNode.Attribute (TargetNode.Name sid) attr)).self_attributes =
          [⟨attr, ann⟩] ∧
      ((AssignedVariablesCollector.init sid ann).visit
        (TargetNode.Attribute (TargetNode.Name sid) attr)).vars = []) ∧
    (∀ b : String, ¬(b = sid) →
      (AssignedVariablesCollector.init sid ann).visit
          (TargetNode.Attribute (TargetNode.Name b) attr) =
        AssignedVariablesCollector.init sid ann) ∧
    (∀ base : TargetNode, isPlainName base = false →
      (AssignedVariablesCollector.init sid ann).visit
          (TargetNode.Attribute base attr) =
        AssignedVariablesCollector.init sid ann) ∧
    (∀ value : TargetNode,
      (AssignedVariablesCollector.init sid ann).visit
          (TargetNode.Subscript value) =
        AssignedVariablesCollector.init sid ann) := by
  refine ⟨⟨?_, ?_⟩, ?_, ?_, ?_⟩
  · simp [AssignedVariablesCollector.visit, AssignedVariablesCollector.init,
      visitTargetAux]
  · simp [AssignedVariablesCollector.visit, AssignedVariablesCollector.init,
      visitTargetAux]
  · intro b hb
    simp [AssignedVariablesCollector.visit, AssignedVariablesCollector.init,
      visitTargetAux, hb]
  · intro base hbase
    cases base with
    | Name i => simp [isPlainName] at hbase
    | Attribute v a =>
      simp [AssignedVariablesCollector.visit, AssignedVariablesCollector.init,
        visitTargetAux]
    | Subscript v =>
      simp [AssignedVariablesCollector.visit, AssignedVariablesCollector.init,
        visitTargetAux]
    | tupleNil =>
      simp [AssignedVariablesCollector.visit, AssignedVariablesCollector.init,
        visitTargetAux]
    | tupleCons h t =>
      simp [AssignedVariablesCollector.visit, AssignedVariablesCollector.init,
        visitTargetAux]
  · intro value
    simp [AssignedVariablesCollector.visit, AssignedVariablesCollector.init,
      visitTargetAux]

theorem spec_c3_witness :
    ((AssignedVariablesCollector.init "self" (some "int")).visit
        (TargetNode.Attribute (TargetNode.Name "self") "my_attr")).self_attributes =
      [⟨"my_attr", some "int"⟩] ∧
    (AssignedVariablesCollector.init "me" (some "int")).visit
        (TargetNode.Attribute (TargetNode.Name "self") "my_attr") =
      AssignedVariablesCollector.init "me" (some "int") ∧
    (AssignedVariablesCollector.init "self" (some "str")).visit
        (TargetNode.Attribute
          (TargetNode.Attribute (TargetNode.Name "self") "my_attr") "id") =
      AssignedVariablesCollector.init "self" (some "str") ∧
    (AssignedVariablesCollector.init "self" (some "int")).visit
        (TargetNode.Subscript
          (TargetNode.Attribute (TargetNode.Name "self") "my_attr")) =
      AssignedVariablesCollector.init "self" (some "int") := by
  refine ⟨(spec_c3_assignment_targets "self" "my_attr" (some "int")).1.1, ?_, ?_, ?_⟩
  · exact (spec_c3_assignment_targets "me" "my_attr" (some "int")).2.1 "self"
      (by decide)
  · exact (spec_c3_assignment_targets "self" "id" (some "str")).2.2.1
      (TargetNode.Attribute (TargetNode.Name "self") "my_attr") (by decide)
  · exact (spec_c3_assignment_targets "self" "my_attr" (some "int")).2.2.2
      (TargetNode.Attribute (TargetNode.Name "self") "my_attr")

/-- C4: every collector run of a decomposed multi-target assignment
statement, and every element of a destructuring target (even when the
collector itself carries an annotation), produces only Variables with no
type expression. -/
theorem spec_c4_multi_destructuring_untyped :
    (∀ (sid : String) (targets : List TargetNode)
        (col : AssignedVariablesCollector),
      col ∈ decomposeMultiAssign sid targets →
      (∀ v ∈ col.vars, v.type_expr = none) ∧
      (∀ v ∈ col.self_attributes, v.type_expr = none)) ∧
    (∀ (sid : String) (ann : Option String) (elts : List TargetNode),
      (∀ v ∈ ((AssignedVariablesCollector.init sid ann).visit
          (tupleTarget elts)).vars, v.type_expr = none) ∧
      (∀ v ∈ ((AssignedVariablesCollector.init sid ann).visit
          (tupleTarget elts)).self_attributes, v.type_expr = none)) := by
  constructor
  · intro sid targets col hcol
    rw [decomposeMultiAssign] at hcol
    obtain ⟨t, ht, rfl⟩ := List.mem_map.mp hcol
    obtain ⟨dv, da, heq, hprop⟩ := visitTargetAux_append t sid none ([], [])
    obtain ⟨hv, ha⟩ := hprop rfl
    constructor
    · intro v hvmem
      have : ((AssignedVariablesCollector.init sid none).visit t).vars = dv := by
        show (visitTargetAux sid none t ([], [])).1 = dv
        rw [heq]
        simp
      rw [this] at hvmem
      exact hv v hvmem
    · intro v hvmem
      have : ((AssignedVariablesCollector.init sid none).visit t).self_attributes
          = da := by
        show (visitTargetAux sid none t ([], [])).2 = da
        rw [heq]
        simp
      rw [this] at hvmem
      exact ha v hvmem
  · intro sid ann elts
    obtain ⟨dv, da, heq, hprop⟩ :=
      visitTargetAux_append (tupleTarget elts) sid none ([], [])
    obtain ⟨hv, ha⟩ := hprop rfl
    constructor
    · intro v hvmem
      have : ((AssignedVariablesCollector.init sid ann).visit
          (tupleTarget elts)).vars = dv := by
        show (visitTargetAux sid ann (tupleTarget elts) ([], [])).1 = dv
        rw [visitTargetAux_tuple_ann_irrel, heq]
        simp
      rw [this] at hvmem
      exact hv v hvmem
    · intro v hvmem
      have : ((AssignedVariablesCollector.init sid ann).visit
          (tupleTarget elts)).self_attributes = da := by
        show (visitTargetAux sid ann (tupleTarget elts) ([], [])).2 = da
        rw [visitTargetAux_tuple_ann_irrel, heq]
        simp
      rw [this] at hvmem
      exact ha v hvmem

theorem spec_c4_witness :
    ((AssignedVariablesCollector.init "self" none).visit (TargetNode.Name "x")) ∈
      decomposeMultiAssign "self" [TargetNode.Name "x", TargetNode.Name "y"] ∧
    (⟨"x", none⟩ : Variable) ∈
      ((AssignedVariablesCollector.init "self" none).visit
        (TargetNode.Name "x")).vars ∧
    (⟨"x", none⟩ : Variable).type_expr = none ∧
    (⟨"my_var", none⟩ : Variable) ∈
      ((AssignedVariablesCollector.init "self" (some "int")).visit
        (tupleTarget [TargetNode.Name "my_var",
          TargetNode.Attribute (TargetNode.Name "self") "my_attr"])).vars ∧
    (⟨"my_var", none⟩ : Variable).type_expr = none := by
  refine ⟨?_, ?_, ?_, ?_, ?_⟩
  · decide
  · decide
  · exact (spec_c4_multi_destructuring_untyped.1 "self"
      [TargetNode.Name "x", TargetNode.Name "y"]
      ((AssignedVariablesCollector.init "self" none).visit (TargetNode.Name "x"))
      (by decide)).1
      ⟨"x", none⟩ (by decide)
  · decide
  · exact (spec_c4_multi_destructuring_untyped.2 "self" (some "int")
      [TargetNode.Name "my_var",
        TargetNode.Attribute (TargetNode.Name "self") "my_attr"]).1
      ⟨"my_var", none⟩ (by decide)

/-- C10: freshly constructed collectors start with no discovered self
identifier (signature collector) and empty output lists; the visit
methods return None (Python's implicit return) and communicate results
only by appending to the output lists. -/
theorem spec_c10_collector_state :
    (∀ src : String,
      (SignatureVariablesCollector.init src).constructor_source = src ∧
      (SignatureVariablesCollector.init src).class_self_id = none ∧
      (SignatureVariablesCollector.init src).vars = []) ∧
    (∀ (sid : String) (ann : Option String),
      (AssignedVariablesCollector.init sid ann).class_self_id = sid ∧
      (AssignedVariablesCollector.init sid ann).vars = [] ∧
      (AssignedVariablesCollector.init sid ann).self_attributes = []) ∧
    (∀ (st : SignatureVariablesCollector) (node : ArgNode),
      (SignatureVariablesCollector.visit_arg st node).2 = none) ∧
    (∀ (st : AssignedVariablesCollector) (i : String),
      (AssignedVariablesCollector.visit_Name st i).2 = none) ∧
    (∀ (st : AssignedVariablesCollector) (value : TargetNode) (a : String),
      (AssignedVariablesCollector.visit_Attribute st value a).2 = none) ∧
    (∀ (st : AssignedVariablesCollector) (value : TargetNode),
      (AssignedVariablesCollector.visit_Subscript st value).2 = none) ∧
    (∀ (st : AssignedVariablesCollector) (t : TargetNode), ∃ dv da,
      (AssignedVariablesCollector.visit st t).vars = st.vars ++ dv ∧
      (AssignedVariablesCollector.visit st t).self_attributes =
        st.self_attributes ++ da) ∧
    (∀ (st : SignatureVariablesCollector) (node : ArgNode), ∃ dv,
      ((SignatureVariablesCollector.visit_arg st node).1).vars =
        st.vars ++ dv) := by
  refine ⟨fun src => ⟨rfl, rfl, rfl⟩, fun sid ann => ⟨rfl, rfl, rfl⟩,
    ?_, fun st i => rfl, fun st v a => rfl, fun st v => rfl, ?_, ?_⟩
  · intro st node
    cases h : st.class_self_id <;>
      simp [SignatureVariablesCollector.visit_arg, h]
  · intro st t
    obtain ⟨dv, da, heq, _⟩ :=
      visitTargetAux_append t st.class_self_id st.annot
        (st.vars, st.self_attributes)
    refine ⟨dv, da, ?_, ?_⟩
    · show (visitTargetAux st.class_self_id st.annot t
        (st.vars, st.self_attributes)).1 = _
      rw [heq]
    · show (visitTargetAux st.class_self_id st.annot t
        (st.vars, st.self_attributes)).2 = _
      rw [heq]
  · intro st node
    cases h : st.class_self_id with
    | none =>
      refine ⟨[], ?_⟩
      simp [SignatureVariablesCollector.visit_arg, h]
    | some v =>
      refine ⟨[⟨node.arg, effectiveAnn node⟩], ?_⟩
      simp [SignatureVariablesCollector.visit_arg, h]

/-- C8: the enum inspector, given any input that is not a genuine
enumeration type, fails fast with a TypeError raised while iterating the
type, before the item mapping is touched, instead of silently
registering an item with an empty member list. -/
theorem spec_c8_enum_inspector_requires_enum (n fqn : String) (m : ItemsByFqn) :
    inspect_enum_type (PyType.nonEnumType n) fqn m =
      .error ("TypeError: " ++ n ++ " is not iterable") := rfl

/-- C9: inspecting a genuine enumeration type registers at the given
fully-qualified name an Enum item whose members are the enumeration's
(name, value) pairs in declaration order, overwriting any previous entry
at that key and leaving every other key of the mapping unchanged. -/
theorem spec_c9_inspect_enum_type_registers (nm : String) (ms : List Member)
    (fqn : String) (m : ItemsByFqn) :
    ∃ m2 : ItemsByFqn,
      inspect_enum_type (PyType.enumType nm ms) fqn m = .ok m2 ∧
      m2 fqn = some (UmlItem.umlEnum nm fqn ms) ∧
      ∀ k : String, ¬(k = fqn) → m2 k = m k := by
  refine ⟨updateItems m fqn (UmlItem.umlEnum nm fqn ms), rfl, ?_, ?_⟩
  · simp [updateItems]
  · intro k hk
    simp [updateItems, hk]

theorem spec_c9_witness :
    itemsOf (inspect_enum_type
        (PyType.enumType "Color" [⟨"RED", PyValue.intVal 1⟩])
        "colors.Color" sampleItems) "colors.Color" =
      some (UmlItem.umlEnum "Color" "colors.Color" [⟨"RED", PyValue.intVal 1⟩]) ∧
    itemsOf (inspect_enum_type
        (PyType.enumType "Color" [⟨"RED", PyValue.intVal 1⟩])
        "colors.Color" sampleItems) "other.Key" =
      sampleItems "other.Key" := by
  obtain ⟨m2, h1, h2, h3⟩ := spec_c9_inspect_enum_type_registers "Color"
    [⟨"RED", PyValue.intVal 1⟩] "colors.Color" sampleItems
  rw [h1]
  exact ⟨h2, h3 "other.Key" (by decide)⟩

end Py2Puml
